import Mathlib

/-!
Verification of the classroom-booking program `Task1.py`.

The program is embedded shallowly:

* Python strings are modelled as `List Char` (`Str`), so that the string
  operations the program uses (`strip`, `lower`, `join`, `split`, `int(...)`,
  `str(...)`) are plain structural functions amenable to proof.
* `Room` and the `BookingSystem.rooms` dict are modelled as a structure and an
  insertion-ordered association list with Python-dict update semantics
  (`dictInsert` overwrites in place, appends fresh keys at the end).
* Exceptions are modelled with `Except Err`; a raised exception leaves the
  (purely functional) state untouched, matching the fact that every raise in
  the source happens before any mutation of the object being operated on.
* The CSV layer is modelled at the row level: `csv.DictWriter` output is a
  `SavedRow` per room, `csv.DictReader` input is a `Row` whose fields are
  `Option Str` (`row.get` on an absent column yields the default).  The csv
  module's quoting is an external library detail and is faithful at this
  granularity.
* Python's `list.sort()` produces the ascending reordering of the list; for a
  list of integers that reordering is unique (`≤` is antisymmetric), so
  `List.insertionSort (· ≤ ·)` models it exactly.
-/

namespace Booking

/-- Python strings, modelled as lists of characters. -/
abbrev Str := List Char

/-- Coerce a Lean string literal to the model's string type. -/
def pstr (s : String) : Str := s.data

/-- Python `str.strip()`: drop whitespace from both ends (Python strips the unicode
whitespace class; the program only ever meets ASCII whitespace, for which
`Char.isWhitespace` agrees). -/
def pyStrip (s : Str) : Str :=
  ((s.dropWhile Char.isWhitespace).reverse.dropWhile Char.isWhitespace).reverse

/-- Python `str.lower()` (the program only compares ASCII building names, for which
`Char.toLower` agrees with Python). -/
def pyLower (s : Str) : Str := s.map Char.toLower

/-- The decimal digit character for `d < 10`. -/
def digitChar (d : Nat) : Char := Char.ofNat (48 + d)

/-- The value of a decimal digit character, `none` on a non-digit. -/
def digitVal? (c : Char) : Option Nat :=
  if c.isDigit then some (c.toNat - 48) else none

/-- Little-endian decimal digits of `n`, with structural fuel. -/
def natDigitsF : Nat → Nat → List Nat
  | 0, _ => []
  | fuel + 1, n => if n = 0 then [] else n % 10 :: natDigitsF fuel (n / 10)

/-- Python `str(n)` for a natural number. -/
def pyNatStr (n : Nat) : Str :=
  if n = 0 then [digitChar 0] else ((natDigitsF (n + 1) n).map digitChar).reverse

/-- Python `str(i)` for a Python integer. -/
def pyIntStr (i : Int) : Str :=
  if i < 0 then '-' :: pyNatStr i.natAbs else pyNatStr i.toNat

/-- Accumulating decimal parser over digit characters; fails on a non-digit. -/
def parseNatAux (acc : Nat) : Str → Option Nat
  | [] => some acc
  | c :: cs =>
    match digitVal? c with
    | none => none
    | some d => parseNatAux (acc * 10 + d) cs

/-- Parse a non-empty all-digit string to a natural number. -/
def parseNat? : Str → Option Nat
  | [] => none
  | c :: cs => parseNatAux 0 (c :: cs)

/-- Python `int(s)` on a string: surrounding whitespace is tolerated, then an optional
sign followed by a non-empty digit run.  (Python additionally accepts digit
separators and non-ASCII digits; no input of this program uses them.) -/
def pyInt? (s : Str) : Option Int :=
  if pyStrip s = [] then none
  else if (pyStrip s).head? = some '-' then
    (parseNat? (pyStrip s).tail).map (fun n : Nat => -(n : Int))
  else if (pyStrip s).head? = some '+' then
    (parseNat? (pyStrip s).tail).map (fun n : Nat => (n : Int))
  else (parseNat? (pyStrip s)).map (fun n : Nat => (n : Int))

/-- Python `sep.join(parts)` for a one-character separator. -/
def pyJoin (c : Char) : List Str → Str
  | [] => []
  | [p] => p
  | p :: q :: ps => p ++ c :: pyJoin c (q :: ps)

/-- Python `s.split(sep)` for a one-character separator.  Never returns `[]`:
splitting the empty string yields `[[]]`, as in Python. -/
def splitOnChar (c : Char) : Str → List Str
  | [] => [[]]
  | x :: xs =>
    if x = c then [] :: splitOnChar c xs
    else
      match splitOnChar c xs with
      | [] => [[x]]
      | p :: ps => (x :: p) :: ps

/-! ### Basic lemmas about the string layer -/

theorem dropWhile_eq_self_of_forall {p : Char → Bool} {s : Str}
    (h : ∀ c ∈ s, ¬ p c) : s.dropWhile p = s := by
  cases s with
  | nil => rfl
  | cons x xs =>
    simp [List.dropWhile, h x (by simp)]

/-- Stripping a string with no whitespace anywhere is the identity. -/
theorem pyStrip_eq_self {s : Str} (h : ∀ c ∈ s, ¬ c.isWhitespace) :
    pyStrip s = s := by
  unfold pyStrip
  rw [dropWhile_eq_self_of_forall h,
      dropWhile_eq_self_of_forall (by simpa using h), List.reverse_reverse]

theorem digitVal?_digitChar {d : Nat} (h : d < 10) :
    digitVal? (digitChar d) = some d := by
  interval_cases d <;> decide

theorem digitChar_not_whitespace {d : Nat} (h : d < 10) :
    ¬ (digitChar d).isWhitespace := by
  interval_cases d <;> decide

theorem digitChar_ne_semi {d : Nat} (h : d < 10) : digitChar d ≠ ';' := by
  interval_cases d <;> decide

theorem digitChar_ne_minus {d : Nat} (h : d < 10) : digitChar d ≠ '-' := by
  interval_cases d <;> decide

theorem digitChar_ne_plus {d : Nat} (h : d < 10) : digitChar d ≠ '+' := by
  interval_cases d <;> decide

/-- The little-endian digit value of a list. -/
def littleVal : List Nat → Nat
  | [] => 0
  | d :: ds => d + 10 * littleVal ds

theorem natDigitsF_val {fuel n : Nat} (h : n ≤ fuel) :
    littleVal (natDigitsF fuel n) = n := by
  induction fuel generalizing n with
  | zero =>
    have : n = 0 := by omega
    simp [this, natDigitsF, littleVal]
  | succ fuel ih =>
    unfold natDigitsF
    by_cases hn : n = 0
    · simp [hn, littleVal]
    · have hdiv : n / 10 ≤ fuel := by
        have := Nat.div_lt_self (Nat.pos_of_ne_zero hn) (by norm_num : 1 < 10)
        omega
      simp only [hn, if_false, littleVal, ih hdiv]
      omega

theorem natDigitsF_lt {fuel n : Nat} : ∀ d ∈ natDigitsF fuel n, d < 10 := by
  induction fuel generalizing n with
  | zero => simp [natDigitsF]
  | succ fuel ih =>
    unfold natDigitsF
    by_cases hn : n = 0
    · simp [hn]
    · simp only [hn, if_false, List.mem_cons]
      rintro d (rfl | hd)
      · exact Nat.mod_lt _ (by omega)
      · exact ih d hd

theorem parseNatAux_append (acc : Nat) (s t : Str) :
    parseNatAux acc (s ++ t) =
      (parseNatAux acc s).bind fun a => parseNatAux a t := by
  induction s generalizing acc with
  | nil => simp [parseNatAux]
  | cons c cs ih =>
    simp only [List.cons_append, parseNatAux]
    cases digitVal? c with
    | none => simp
    | some d => simp [ih]

theorem parseNatAux_rev_digits {ds : List Nat} (hds : ∀ d ∈ ds, d < 10)
    (acc : Nat) :
    parseNatAux acc ((ds.map digitChar).reverse) =
      some (acc * 10 ^ ds.length + littleVal ds) := by
  induction ds generalizing acc with
  | nil => simp [parseNatAux, littleVal]
  | cons d ds ih =>
    have hd : d < 10 := hds d (by simp)
    have hrest : ∀ x ∈ ds, x < 10 := fun x hx => hds x (by simp [hx])
    simp only [List.map_cons, List.reverse_cons, parseNatAux_append,
      ih hrest acc, Option.some_bind, parseNatAux, digitVal?_digitChar hd,
      littleVal, List.length_cons]
    congr 1
    ring

theorem pyNatStr_ne_nil (n : Nat) : pyNatStr n ≠ [] := by
  unfold pyNatStr
  by_cases hn : n = 0
  · simp [hn]
  · simp only [hn, if_false, ne_eq, List.reverse_eq_nil_iff, List.map_eq_nil_iff]
    unfold natDigitsF
    simp [hn]

theorem parseNat?_pyNatStr (n : Nat) : parseNat? (pyNatStr n) = some n := by
  by_cases hn : n = 0
  · subst hn; decide
  · have hne := pyNatStr_ne_nil n
    unfold pyNatStr at hne ⊢
    simp only [hn, if_false] at hne ⊢
    rcases h : ((natDigitsF (n + 1) n).map digitChar).reverse with _ | ⟨c, cs⟩
    · exact absurd h hne
    · rw [parseNat?, ← h,
        parseNatAux_rev_digits (fun d hd => natDigitsF_lt d hd) 0,
        natDigitsF_val (Nat.le_succ n)]
      simp

theorem pyNatStr_mem {n : Nat} : ∀ c ∈ pyNatStr n, ∃ d, d < 10 ∧ c = digitChar d := by
  intro c hc
  unfold pyNatStr at hc
  by_cases hn : n = 0
  · rw [if_pos hn, List.mem_singleton] at hc
    exact ⟨0, by norm_num, hc⟩
  · rw [if_neg hn] at hc
    simp only [List.mem_reverse, List.mem_map] at hc
    obtain ⟨d, hd, rfl⟩ := hc
    exact ⟨d, natDigitsF_lt d hd, rfl⟩

theorem pyIntStr_not_whitespace {i : Int} : ∀ c ∈ pyIntStr i, ¬ c.isWhitespace := by
  intro c hc
  unfold pyIntStr at hc
  by_cases hi : i < 0
  · rw [if_pos hi, List.mem_cons] at hc
    rcases hc with rfl | hc
    · decide
    · obtain ⟨d, hd, rfl⟩ := pyNatStr_mem c hc
      exact digitChar_not_whitespace hd
  · rw [if_neg hi] at hc
    obtain ⟨d, hd, rfl⟩ := pyNatStr_mem c hc
    exact digitChar_not_whitespace hd

theorem pyIntStr_ne_semi {i : Int} : ∀ c ∈ pyIntStr i, c ≠ ';' := by
  intro c hc
  unfold pyIntStr at hc
  by_cases hi : i < 0
  · rw [if_pos hi, List.mem_cons] at hc
    rcases hc with rfl | hc
    · decide
    · obtain ⟨d, hd, rfl⟩ := pyNatStr_mem c hc
      exact digitChar_ne_semi hd
  · rw [if_neg hi] at hc
    obtain ⟨d, hd, rfl⟩ := pyNatStr_mem c hc
    exact digitChar_ne_semi hd

theorem pyIntStr_ne_nil (i : Int) : pyIntStr i ≠ [] := by
  unfold pyIntStr
  by_cases hi : i < 0
  · simp [hi]
  · simp [hi, pyNatStr_ne_nil]

/-- Roundtrip `int(str(i)) = i`: the printer and the parser agree on every integer. -/
theorem pyInt?_pyIntStr (i : Int) : pyInt? (pyIntStr i) = some i := by
  unfold pyInt?
  rw [pyStrip_eq_self pyIntStr_not_whitespace]
  by_cases hi : i < 0
  · have h : pyIntStr i = '-' :: pyNatStr i.natAbs := by
      unfold pyIntStr; simp [hi]
    rw [h, if_neg (List.cons_ne_nil _ _)]
    simp only [List.head?_cons, List.tail_cons, if_pos rfl, if_true,
      parseNat?_pyNatStr, Option.map_some', Option.some.injEq]
    omega
  · have h : pyIntStr i = pyNatStr i.toNat := by
      unfold pyIntStr; simp [hi]
    rcases hd : pyNatStr i.toNat with _ | ⟨c, cs⟩
    · exact absurd hd (pyNatStr_ne_nil _)
    · obtain ⟨d, hdlt, rfl⟩ := pyNatStr_mem c (by rw [hd]; simp)
      have hm : (some (digitChar d) : Option Char) ≠ some '-' := by
        simp [digitChar_ne_minus hdlt]
      have hp : (some (digitChar d) : Option Char) ≠ some '+' := by
        simp [digitChar_ne_plus hdlt]
      rw [h, hd, if_neg (List.cons_ne_nil _ _), List.head?_cons, if_neg hm,
        if_neg hp, ← hd, parseNat?_pyNatStr, Option.map_some']
      simp only [Option.some.injEq]
      omega

theorem splitOnChar_of_not_mem {c : Char} {p : Str} (h : c ∉ p) :
    splitOnChar c p = [p] := by
  induction p with
  | nil => rfl
  | cons x xs ih =>
    have hx : x ≠ c := fun hxc => h (by simp [hxc])
    have hxs : c ∉ xs := fun hc => h (by simp [hc])
    simp only [splitOnChar, if_neg hx, ih hxs]

theorem splitOnChar_append_cons {c : Char} {p : Str} (h : c ∉ p) (rest : Str) :
    splitOnChar c (p ++ c :: rest) = p :: splitOnChar c rest := by
  induction p with
  | nil => simp [splitOnChar]
  | cons x xs ih =>
    have hx : x ≠ c := fun hxc => h (by simp [hxc])
    have hxs : c ∉ xs := fun hc => h (by simp [hc])
    simp only [List.cons_append, splitOnChar, if_neg hx]
    rw [show splitOnChar c (xs.append (c :: rest)) = xs :: splitOnChar c rest from
      ih hxs]

/-- Splitting undoes joining, when no part contains the separator. -/
theorem splitOnChar_pyJoin {c : Char} {parts : List Str} (hne : parts ≠ [])
    (h : ∀ p ∈ parts, c ∉ p) : splitOnChar c (pyJoin c parts) = parts := by
  induction parts with
  | nil => exact absurd rfl hne
  | cons p ps ih =>
    cases ps with
    | nil => exact splitOnChar_of_not_mem (h p (by simp))
    | cons q qs =>
      have hp : c ∉ p := h p (by simp)
      rw [pyJoin, splitOnChar_append_cons hp,
        ih (by simp) (fun x hx => h x (by simp [List.mem_cons] at hx ⊢; tauto))]

/-! ### The data model of `Task1.py` -/

/-- The error conditions the program raises: the three custom exception
classes, plus `InvalidHour` for the `ValueError` that `book_room` raises on
an hour outside `[0, 23]` (the spec's name for that error). -/
inductive Err where
  | RoomNotFound
  | TimeslotAlreadyBooked
  | RoomAlreadyExists
  | InvalidHour
deriving DecidableEq, Repr

/-- Source `class Room`: `__init__` stores `room_no`, `building`, `int(capacity)` and
the booked hours as a list of ints (empty when the argument is omitted).
`int(...)` on values that are already integers is the identity, so the
constructor is the plain structure constructor. -/
structure Room where
  room_no : Str
  building : Str
  capacity : Int
  booked_hours : List Int
deriving DecidableEq, Repr

/-- Source `Room.is_free_at`: `hour not in self.booked_hours`. -/
def Room.is_free_at (r : Room) (hour : Int) : Bool :=
  decide (hour ∉ r.booked_hours)

/-- Source `Room.book_hour`: raise `TimeslotAlreadyBooked` when the hour is taken,
otherwise append the hour and re-sort ascending (`list.sort()`; the ascending
reordering of an integer list is unique, so insertion sort models it
exactly). -/
def Room.book_hour (r : Room) (hour : Int) : Except Err Room :=
  if ¬ r.is_free_at hour then .error .TimeslotAlreadyBooked
  else .ok { r with booked_hours := (r.booked_hours ++ [hour]).insertionSort (· ≤ ·) }

/-- Source `Room.booked_hours_str`: `";".join(str(h) for h in self.booked_hours)`. -/
def Room.booked_hours_str (r : Room) : Str :=
  pyJoin ';' (r.booked_hours.map pyIntStr)

/-- Source `BookingSystem.rooms`: a Python dict, modelled as an insertion-ordered
association list.  `dictInsert` below implements dict assignment (overwrite
in place, append fresh keys), `dictGet?` implements lookup. -/
abbrev Registry := List (Str × Room)

/-- Dict lookup `rooms[k]` / `k in rooms`. -/
def dictGet? : Registry → Str → Option Room
  | [], _ => none
  | (k, v) :: rest, id => if k = id then some v else dictGet? rest id

/-- Dict assignment `rooms[k] = r`: overwrite in place, append a fresh key. -/
def dictInsert : Registry → Str → Room → Registry
  | [], id, r => [(id, r)]
  | (k, v) :: rest, id, r =>
    if k = id then (k, r) :: rest else (k, v) :: dictInsert rest id r

/-- The dict's keys, in insertion order. -/
def dictKeys (reg : Registry) : List Str := reg.map Prod.fst

/-- Source `rooms.values()`, in insertion order. -/
def dictValues (reg : Registry) : List Room := reg.map Prod.snd

/-- Source `BookingSystem.add_room`: raise `RoomAlreadyExists` on a duplicate id,
otherwise insert `Room(room_no, building, capacity)` (empty booked hours). -/
def add_room (reg : Registry) (room_no building : Str) (capacity : Int) :
    Except Err Registry :=
  if (dictGet? reg room_no).isSome then .error .RoomAlreadyExists
  else .ok (dictInsert reg room_no ⟨room_no, building, capacity, []⟩)

/-- Source `BookingSystem.get_room`: raise `RoomNotFound` on an absent id. -/
def get_room (reg : Registry) (room_no : Str) : Except Err Room :=
  match dictGet? reg room_no with
  | none => .error .RoomNotFound
  | some r => .ok r

/-- Source `BookingSystem.book_room`: resolve the room first (`get_room`), then
range-check the hour, then delegate to `Room.book_hour`.  The in-place
mutation of the shared `Room` object is modelled by writing the updated room
back at its key. -/
def book_room (reg : Registry) (room_no : Str) (hour : Int) :
    Except Err Registry :=
  match get_room reg room_no with
  | .error e => .error e
  | .ok room =>
    if hour < 0 ∨ hour > 23 then .error .InvalidHour
    else
      match room.book_hour hour with
      | .error e => .error e
      | .ok r2 => .ok (dictInsert reg room_no r2)

/-- Source `BookingSystem.find_rooms`: successive list filters over
`rooms.values()`; a `None` filter is skipped.  `int(...)` on the already
integral `min_capacity` and `free_at_hour` is the identity. -/
def find_rooms (reg : Registry) (building : Option Str) (min_capacity : Option Int)
    (free_at_hour : Option Int) : List Room :=
  let r0 := dictValues reg
  let r1 := match building with
    | none => r0
    | some b => r0.filter (fun r => decide (pyLower r.building = pyLower b))
  let r2 := match min_capacity with
    | none => r1
    | some m => r1.filter (fun r => decide (m ≤ r.capacity))
  match free_at_hour with
  | none => r2
  | some h => r2.filter (fun r => r.is_free_at h)

/-! ### The CSV layer of `Task1.py`, at row granularity -/

/-- One row as `csv.DictReader` delivers it: `row.get(field, default)` yields
the default when the column is absent from the file's header. -/
structure Row where
  room_no : Option Str
  building : Option Str
  capacity : Option Str
  booked_hours : Option Str
deriving DecidableEq, Repr

/-- One row as `csv.DictWriter` receives it in `save_to_csv`. -/
structure SavedRow where
  room_no : Str
  building : Str
  capacity : Str
  booked_hours : Str
deriving DecidableEq, Repr

/-- A written row read back: every column of the header is present. -/
def SavedRow.toRow (s : SavedRow) : Row :=
  ⟨some s.room_no, some s.building, some s.capacity, some s.booked_hours⟩

/-- Source `[int(x) for x in ...]` over option-valued parses; `none` models the
`ValueError` escaping the comprehension. -/
def mapPyInt : List Str → Option (List Int)
  | [] => some []
  | x :: xs =>
    match pyInt? x, mapPyInt xs with
    | some i, some is => some (i :: is)
    | _, _ => none

/-- Source `[int(x) for x in s.split(';') if x.strip() != '']`. -/
def parseHours? (s : Str) : Option (List Int) :=
  mapPyInt ((splitOnChar ';' s).filter (fun x => decide (pyStrip x ≠ [])))

/-- The outcome of one iteration of the row loop in `load_from_csv`. -/
inductive RowResult where
  | skip
  | insert (id : Str) (room : Room)
  | err
deriving DecidableEq, Repr

/-- One iteration of the row loop in `load_from_csv`, in source order: read
and strip the four fields (`capacity` defaulting to `"0"`), parse the booked
hours (a `ValueError` here aborts), skip the row when `room_no` is empty,
parse the capacity (`int(capacity)` inside `Room.__init__`; a `ValueError`
here aborts too), and otherwise insert the freshly built `Room`. -/
def processRow (row : Row) : RowResult :=
  let room_no := pyStrip (row.room_no.getD [])
  let building := pyStrip (row.building.getD [])
  let capacityS := pyStrip (row.capacity.getD ['0'])
  let bhS := pyStrip (row.booked_hours.getD [])
  match (if bhS = [] then some [] else parseHours? bhS) with
  | none => .err
  | some hours =>
    if room_no = [] then .skip
    else
      match pyInt? capacityS with
      | none => .err
      | some cap => .insert room_no ⟨room_no, building, cap, hours⟩

/-- The row loop of `load_from_csv`.  An exception is caught *outside* the
loop, so the rows already inserted stay in `self.rooms`. -/
def loadRows : Registry → List Row → Registry
  | reg, [] => reg
  | reg, row :: rest =>
    match processRow row with
    | .skip => loadRows reg rest
    | .insert id room => loadRows (dictInsert reg id room) rest
    | .err => reg

/-- Source `BookingSystem.load_from_csv`, run from the empty dict of `__init__`:
`none` models a missing file (start empty), otherwise process the rows. -/
def load_from_csv : Option (List Row) → Registry
  | none => []
  | some rows => loadRows [] rows

/-- Source `BookingSystem.save_to_csv`: one row per room in dict order, with
`capacity` written through `str(...)` and the hours through
`booked_hours_str`. -/
def save_to_csv (reg : Registry) : List SavedRow :=
  reg.map (fun p => ⟨p.2.room_no, p.2.building, pyIntStr p.2.capacity,
    p.2.booked_hours_str⟩)

/-- The display the spec prescribes for `bookedHoursDisplay`: the booked
hours in ascending order, semicolon-joined.  (Stated from the spec's words,
for comparison with `Room.booked_hours_str`.) -/
def ascendingDisplay (r : Room) : Str :=
  pyJoin ';' ((r.booked_hours.insertionSort (· ≤ ·)).map pyIntStr)

/-- A sequence of `book_hour` calls on one room; a raised
`TimeslotAlreadyBooked` leaves the room unchanged and the caller carries
on. -/
def bookSeq (r : Room) (hs : List Int) : Room :=
  hs.foldl (fun room h =>
    match room.book_hour h with
    | .ok r2 => r2
    | .error _ => room) r

/-- The registry states reachable in a program run: start empty
(`__init__`), optionally hydrate once from a file whose inserted rows carry
duplicate-free hour lists, and apply successful `add_room` / `book_room`
calls. -/
inductive Reach : Registry → Prop
  | init : Reach []
  | hydrate (rows : List Row)
      (hok : ∀ row ∈ rows, ∀ id room, processRow row = .insert id room →
        room.booked_hours.Nodup) :
      Reach (load_from_csv (some rows))
  | add {reg reg' : Registry} {id b : Str} {cap : Int} :
      Reach reg → add_room reg id b cap = .ok reg' → Reach reg'
  | book {reg reg' : Registry} {id : Str} {hour : Int} :
      Reach reg → book_room reg id hour = .ok reg' → Reach reg'

/-! ### Lemmas about the dict model -/

theorem dictKeys_cons (k : Str) (v : Room) (rest : Registry) :
    dictKeys ((k, v) :: rest) = k :: dictKeys rest := rfl

theorem dictValues_cons (k : Str) (v : Room) (rest : Registry) :
    dictValues ((k, v) :: rest) = v :: dictValues rest := rfl

theorem dictGet?_cons (k : Str) (v : Room) (rest : Registry) (id : Str) :
    dictGet? ((k, v) :: rest) id =
      if k = id then some v else dictGet? rest id := rfl

theorem dictInsert_cons (k : Str) (v : Room) (rest : Registry) (id : Str)
    (r : Room) :
    dictInsert ((k, v) :: rest) id r =
      if k = id then (k, r) :: rest else (k, v) :: dictInsert rest id r := rfl

theorem dictGet?_eq_none {reg : Registry} {id : Str} :
    dictGet? reg id = none ↔ id ∉ dictKeys reg := by
  induction reg with
  | nil => simp [dictGet?, dictKeys]
  | cons p rest ih =>
    obtain ⟨k, v⟩ := p
    rw [dictGet?_cons, dictKeys_cons, List.mem_cons, not_or]
    by_cases hk : k = id
    · subst hk
      simp
    · rw [if_neg hk, ih]
      have : ¬ id = k := fun h => hk h.symm
      tauto

theorem dictGet?_isSome {reg : Registry} {id : Str} :
    (dictGet? reg id).isSome = true ↔ id ∈ dictKeys reg := by
  rw [Option.isSome_iff_ne_none, ne_eq, dictGet?_eq_none, not_not]

theorem dictInsert_of_not_mem {reg : Registry} {id : Str} (r : Room)
    (h : id ∉ dictKeys reg) : dictInsert reg id r = reg ++ [(id, r)] := by
  induction reg with
  | nil => rfl
  | cons p rest ih =>
    obtain ⟨k, v⟩ := p
    rw [dictKeys_cons, List.mem_cons, not_or] at h
    obtain ⟨h1, h2⟩ := h
    have hk : ¬ k = id := fun hkid => h1 hkid.symm
    rw [dictInsert_cons, if_neg hk, ih h2, List.cons_append]

theorem dictKeys_dictInsert_of_mem {reg : Registry} {id : Str} (r : Room)
    (h : id ∈ dictKeys reg) : dictKeys (dictInsert reg id r) = dictKeys reg := by
  induction reg with
  | nil => cases h
  | cons p rest ih =>
    obtain ⟨k, v⟩ := p
    rw [dictInsert_cons]
    by_cases hk : k = id
    · rw [if_pos hk, dictKeys_cons, dictKeys_cons]
    · rw [if_neg hk, dictKeys_cons, dictKeys_cons]
      rw [dictKeys_cons, List.mem_cons] at h
      rcases h with h | h
      · exact absurd h.symm hk
      · rw [ih h]

theorem dictKeys_dictInsert_nodup {reg : Registry} {id : Str} (r : Room)
    (h : (dictKeys reg).Nodup) : (dictKeys (dictInsert reg id r)).Nodup := by
  by_cases hm : id ∈ dictKeys reg
  · rw [dictKeys_dictInsert_of_mem r hm]; exact h
  · rw [dictInsert_of_not_mem r hm]
    have : dictKeys (reg ++ [(id, r)]) = dictKeys reg ++ [id] := by
      simp [dictKeys]
    rw [this, List.nodup_append]
    exact ⟨h, List.nodup_singleton _, by
      intro a ha hb
      rw [List.mem_singleton] at hb
      subst hb
      exact hm ha⟩

theorem dictValues_dictInsert_mem {reg : Registry} {id : Str} {r v : Room}
    (h : v ∈ dictValues (dictInsert reg id r)) : v ∈ dictValues reg ∨ v = r := by
  induction reg with
  | nil =>
    rw [show dictInsert [] id r = [(id, r)] from rfl, dictValues_cons] at h
    rcases List.mem_cons.mp h with h | h
    · exact Or.inr h
    · cases h
  | cons p rest ih =>
    obtain ⟨k, w⟩ := p
    rw [dictInsert_cons] at h
    by_cases hk : k = id
    · rw [if_pos hk, dictValues_cons] at h
      rcases List.mem_cons.mp h with h | h
      · exact Or.inr h
      · exact Or.inl (by rw [dictValues_cons]; exact List.mem_cons_of_mem _ h)
    · rw [if_neg hk, dictValues_cons] at h
      rcases List.mem_cons.mp h with h | h
      · exact Or.inl (by rw [dictValues_cons, h]; exact List.mem_cons_self _ _)
      · rcases ih h with hm | rfl
        · exact Or.inl (by rw [dictValues_cons]; exact List.mem_cons_of_mem _ hm)
        · exact Or.inr rfl

theorem dictGet?_mem_values {reg : Registry} {id : Str} {r : Room}
    (h : dictGet? reg id = some r) : r ∈ dictValues reg := by
  induction reg with
  | nil => cases h
  | cons p rest ih =>
    obtain ⟨k, v⟩ := p
    rw [dictGet?_cons] at h
    rw [dictValues_cons]
    by_cases hk : k = id
    · rw [if_pos hk, Option.some.injEq] at h
      rw [h]
      exact List.mem_cons_self _ _
    · rw [if_neg hk] at h
      exact List.mem_cons_of_mem _ (ih h)

/-! ### Lemmas about `Room.book_hour` -/

theorem book_hour_of_mem {r : Room} {h : Int} (hm : h ∈ r.booked_hours) :
    r.book_hour h = .error .TimeslotAlreadyBooked := by
  simp [Room.book_hour, Room.is_free_at, hm]

theorem book_hour_of_not_mem {r : Room} {h : Int} (hm : h ∉ r.booked_hours) :
    r.book_hour h =
      .ok { r with booked_hours := (r.booked_hours ++ [h]).insertionSort (· ≤ ·) } := by
  simp [Room.book_hour, Room.is_free_at, hm]

theorem book_hour_ok_perm {r r' : Room} {h : Int} (hok : r.book_hour h = .ok r') :
    r'.booked_hours.Perm (r.booked_hours ++ [h]) ∧
      r'.booked_hours.Sorted (· ≤ ·) ∧
      r'.room_no = r.room_no ∧ r'.building = r.building ∧
      r'.capacity = r.capacity := by
  by_cases hm : h ∈ r.booked_hours
  · rw [book_hour_of_mem hm] at hok; cases hok
  · rw [book_hour_of_not_mem hm] at hok
    cases hok
    refine ⟨List.perm_insertionSort _ _, ?_, rfl, rfl, rfl⟩
    exact List.sorted_insertionSort _ _

theorem book_hour_ok_mem {r r' : Room} {h : Int} (hok : r.book_hour h = .ok r') :
    h ∈ r'.booked_hours := by
  have := (book_hour_ok_perm hok).1
  exact this.mem_iff.mpr (by simp)

/-! ### The claims -/

/-- C1: for every Room `r` and integer `h`, `bookHour(h)` fails with
`TimeslotAlreadyBooked` iff `h` is already present in `r`'s `bookedHours`,
and otherwise inserts `h`; after a successful `bookHour(h)`, `isFreeAt(h)`
returns false and a repeated `bookHour(h)` fails with
`TimeslotAlreadyBooked`. -/
theorem C1_bookHour_conflict (r : Room) (h : Int) :
    (r.book_hour h = .error .TimeslotAlreadyBooked ↔ h ∈ r.booked_hours) ∧
    (h ∉ r.booked_hours →
      ∃ r', r.book_hour h = .ok r' ∧
        r'.booked_hours.Perm (h :: r.booked_hours) ∧
        r'.is_free_at h = false ∧
        r'.book_hour h = .error .TimeslotAlreadyBooked) := by
  refine ⟨⟨fun he => ?_, book_hour_of_mem⟩, fun hm => ?_⟩
  · by_contra hne
    rw [book_hour_of_not_mem hne] at he
    cases he
  · refine ⟨_, book_hour_of_not_mem hm, ?_, ?_, ?_⟩
    · exact (List.perm_insertionSort _ _).trans (List.perm_append_singleton _ _)
    · have hmem : h ∈ (r.booked_hours ++ [h]).insertionSort (· ≤ ·) := by
        rw [List.mem_insertionSort]
        simp
      simp [Room.is_free_at, hmem]
    · exact book_hour_of_mem (by rw [List.mem_insertionSort]; simp)

/-- Witness for C1 at the spec's scenario room and hour 9. -/
theorem C1_bookHour_conflict_witness :
    ∃ r', (Room.mk (pstr ("NAB101")) (pstr ("NAB")) 30 []).book_hour 9 = .ok r' ∧
      r'.booked_hours.Perm (9 :: ([] : List Int)) ∧
      r'.is_free_at 9 = false ∧
      r'.book_hour 9 = .error .TimeslotAlreadyBooked :=
  (C1_bookHour_conflict (Room.mk (pstr ("NAB101")) (pstr ("NAB")) 30 []) 9).2
    (by decide)

/-- C8: a `bookHour(h1)` call that succeeds does not change `isFreeAt(h2)`
for any `h2 ≠ h1`, and leaves the room's id, building and capacity
unchanged.  (A failing `bookHour` raises before mutating anything, so the
failure case leaves the room unchanged by construction in this embedding.) -/
theorem C8_bookHour_frame (r r' : Room) (h1 h2 : Int) (hne : h1 ≠ h2)
    (hok : r.book_hour h1 = .ok r') :
    r'.is_free_at h2 = r.is_free_at h2 ∧ r'.room_no = r.room_no ∧
      r'.building = r.building ∧ r'.capacity = r.capacity := by
  obtain ⟨hperm, _, hid, hb, hc⟩ := book_hour_ok_perm hok
  refine ⟨?_, hid, hb, hc⟩
  have hiff : h2 ∈ r'.booked_hours ↔ h2 ∈ r.booked_hours := by
    rw [hperm.mem_iff, List.mem_append, List.mem_singleton]
    constructor
    · rintro (hm | heq)
      · exact hm
      · exact absurd heq.symm hne
    · exact Or.inl
  by_cases hmem : h2 ∈ r.booked_hours
  · have h2' : h2 ∈ r'.booked_hours := hiff.mpr hmem
    simp [Room.is_free_at, hmem, h2']
  · have h2' : h2 ∉ r'.booked_hours := fun hm => hmem (hiff.mp hm)
    simp [Room.is_free_at, hmem, h2']

/-- Witness for C8: booking hour 9 in a room leaves hour 5 unaffected. -/
theorem C8_bookHour_frame_witness :
    (Room.mk (pstr ("A")) (pstr ("B")) 1 [5, 9]).is_free_at 5 =
        (Room.mk (pstr ("A")) (pstr ("B")) 1 [5]).is_free_at 5 ∧
      (Room.mk (pstr ("A")) (pstr ("B")) 1 [5, 9]).room_no =
        (Room.mk (pstr ("A")) (pstr ("B")) 1 [5]).room_no ∧
      (Room.mk (pstr ("A")) (pstr ("B")) 1 [5, 9]).building =
        (Room.mk (pstr ("A")) (pstr ("B")) 1 [5]).building ∧
      (Room.mk (pstr ("A")) (pstr ("B")) 1 [5, 9]).capacity =
        (Room.mk (pstr ("A")) (pstr ("B")) 1 [5]).capacity :=
  C8_bookHour_frame (Room.mk (pstr ("A")) (pstr ("B")) 1 [5])
    (Room.mk (pstr ("A")) (pstr ("B")) 1 [5, 9]) 9 5 (by decide) rfl

/-- C3: `addRoom(id, building, capacity)` fails with `RoomAlreadyExists` when
`id` is already a key in the room mapping — and, the operation being pure, a
failed call returns no new registry, so the registry and in particular its
size are unchanged — while on a fresh `id` it appends a new Room with the
given id, building and capacity and an empty booked-hours set. -/
theorem C3_addRoom (reg : Registry) (id b : Str) (cap : Int) :
    (id ∈ dictKeys reg → add_room reg id b cap = .error .RoomAlreadyExists) ∧
    (id ∉ dictKeys reg →
      add_room reg id b cap = .ok (reg ++ [(id, Room.mk id b cap [])])) := by
  constructor
  · intro hm
    unfold add_room
    rw [if_pos (dictGet?_isSome.mpr hm)]
  · intro hm
    unfold add_room
    rw [if_neg (by rw [dictGet?_isSome]; exact hm), dictInsert_of_not_mem _ hm]

/-- Witness for C3: a duplicate id fails, a fresh id is appended. -/
theorem C3_addRoom_witness :
    add_room [(pstr ("A"), Room.mk (pstr ("A")) (pstr ("B")) 3 [])] (pstr ("A"))
        (pstr ("NAB")) 30 = .error .RoomAlreadyExists ∧
      add_room [(pstr ("A"), Room.mk (pstr ("A")) (pstr ("B")) 3 [])] (pstr ("C"))
        (pstr ("NAB")) 30 =
        .ok ([(pstr ("A"), Room.mk (pstr ("A")) (pstr ("B")) 3 [])] ++
          [(pstr ("C"), Room.mk (pstr ("C")) (pstr ("NAB")) 30 [])]) :=
  ⟨(C3_addRoom [(pstr ("A"), Room.mk (pstr ("A")) (pstr ("B")) 3 [])] (pstr ("A"))
      (pstr ("NAB")) 30).1 (by decide),
    (C3_addRoom [(pstr ("A"), Room.mk (pstr ("A")) (pstr ("B")) 3 [])] (pstr ("C"))
      (pstr ("NAB")) 30).2 (by decide)⟩

/-- C2: `bookRoom(id, h)` resolves the room first: an absent id fails with
`RoomNotFound` (the call is pure, so the registry value is untouched); a
present room with `h` outside `[0, 23]` fails with `InvalidHour`; otherwise
the call is exactly `Room.bookHour`'s outcome — `TimeslotAlreadyBooked`
propagated unchanged, a success written back at the id. -/
theorem C2_bookRoom (reg : Registry) (id : Str) (h : Int) :
    (dictGet? reg id = none → book_room reg id h = .error .RoomNotFound) ∧
    (∀ room, dictGet? reg id = some room → (h < 0 ∨ 23 < h) →
      book_room reg id h = .error .InvalidHour) ∧
    (∀ room, dictGet? reg id = some room → 0 ≤ h → h ≤ 23 →
      book_room reg id h = (room.book_hour h).map (dictInsert reg id)) := by
  refine ⟨fun hnone => ?_, fun room hsome hrange => ?_, fun room hsome h0 h23 => ?_⟩
  · unfold book_room get_room
    rw [hnone]
  · unfold book_room get_room
    rw [hsome]
    have : h < 0 ∨ h > 23 := hrange
    simp only [if_pos this]
  · unfold book_room get_room
    rw [hsome]
    have : ¬ (h < 0 ∨ h > 23) := by omega
    simp only [if_neg this]
    cases hb : room.book_hour h <;> simp [Except.map]

/-- Witness for C2: the spec's `GHOST` scenario, an out-of-range hour, and a
delegated booking, at concrete registries. -/
theorem C2_bookRoom_witness :
    book_room [] (pstr ("GHOST")) 5 = .error .RoomNotFound ∧
      book_room [(pstr ("A"), Room.mk (pstr ("A")) (pstr ("B")) 3 [9])] (pstr ("A")) 99 =
        .error .InvalidHour ∧
      book_room [(pstr ("A"), Room.mk (pstr ("A")) (pstr ("B")) 3 [9])] (pstr ("A")) 9 =
        ((Room.mk (pstr ("A")) (pstr ("B")) 3 [9]).book_hour 9).map
          (dictInsert [(pstr ("A"), Room.mk (pstr ("A")) (pstr ("B")) 3 [9])] (pstr ("A"))) :=
  ⟨(C2_bookRoom [] (pstr ("GHOST")) 5).1 rfl,
    (C2_bookRoom [(pstr ("A"), Room.mk (pstr ("A")) (pstr ("B")) 3 [9])] (pstr ("A")) 99).2.1
      (Room.mk (pstr ("A")) (pstr ("B")) 3 [9]) rfl (by decide),
    (C2_bookRoom [(pstr ("A"), Room.mk (pstr ("A")) (pstr ("B")) 3 [9])] (pstr ("A")) 9).2.2
      (Room.mk (pstr ("A")) (pstr ("B")) 3 [9]) rfl (by decide) (by decide)⟩

/-- C4 counterexample: the claim's parenthetical "an out-of-range hour
matches every room" fails on the code.  A room hydrated from a CSV row with
`booked_hours = "99"` has hour 99 booked (`load_from_csv` applies no range
check), so `findRooms(freeAtHour=99)` excludes it instead of matching it. -/
theorem C4_findRooms_out_of_range_cex :
    load_from_csv (some [Row.mk (some (pstr ("A"))) (some (pstr ("B")))
        (some (pstr ("1"))) (some (pstr ("99")))]) =
      [(pstr ("A"), Room.mk (pstr ("A")) (pstr ("B")) 1 [99])] ∧
    find_rooms [(pstr ("A"), Room.mk (pstr ("A")) (pstr ("B")) 1 [99])]
        none none (some 99) = [] ∧
    dictValues [(pstr ("A"), Room.mk (pstr ("A")) (pstr ("B")) 1 [99])] ≠ [] := by
  refine ⟨by decide, by decide, by decide⟩

/-- C4 (amended): `findRooms` returns exactly the rooms satisfying the
conjunction of the supplied filters (building case-insensitively equal,
capacity at least `minCapacity`, `isFreeAt(freeAtHour)` with no range check
on the hour — so an out-of-range hour matches every room whose booked hours
all lie in [0,23], though not one hydrated with an out-of-range hour); with
no filters it returns every room, exactly once when the registry keys are
distinct and each room is stored under its own id. -/
theorem C4_findRooms_filters (reg : Registry) (b : Option Str)
    (mc fh : Option Int) :
    (∀ room, room ∈ find_rooms reg b mc fh ↔ room ∈ dictValues reg ∧
      (∀ s, b = some s → pyLower room.building = pyLower s) ∧
      (∀ m, mc = some m → m ≤ room.capacity) ∧
      (∀ h, fh = some h → room.is_free_at h = true)) ∧
    (find_rooms reg none none none = dictValues reg) ∧
    ((dictKeys reg).Nodup → (∀ p ∈ reg, p.2.room_no = p.1) →
      (find_rooms reg none none none).Nodup) ∧
    (∀ h : Int, (h < 0 ∨ 23 < h) →
      (∀ room ∈ dictValues reg, ∀ x ∈ room.booked_hours, 0 ≤ x ∧ x ≤ 23) →
      find_rooms reg none none (some h) = dictValues reg) := by
  refine ⟨fun room => ?_, rfl, fun hkeys hid => ?_, fun h hout hin => ?_⟩
  · cases b <;> cases mc <;> cases fh <;>
      simp [find_rooms, List.mem_filter, and_assoc] <;> tauto
  · show (dictValues reg).Nodup
    have hreg : reg.Nodup := List.Nodup.of_map Prod.fst hkeys
    exact hreg.map_on (fun p hp q hq hpq => by
      have h1 : p.1 = q.1 := by rw [← hid p hp, ← hid q hq, hpq]
      exact Prod.ext h1 hpq)
  · show (dictValues reg).filter (fun r => r.is_free_at h) = dictValues reg
    rw [List.filter_eq_self]
    intro room hroom
    have : h ∉ room.booked_hours := fun hmem => by
      have := hin room hroom h hmem
      omega
    simp [Room.is_free_at, this]

/-- Witness for C4 at a concrete one-room registry: no-filter query has no
duplicates, and an out-of-range hour matches every (in-range) room. -/
theorem C4_findRooms_filters_witness :
    (find_rooms [(pstr ("A"), Room.mk (pstr ("A")) (pstr ("B")) 3 [9])]
        none none none).Nodup ∧
      find_rooms [(pstr ("A"), Room.mk (pstr ("A")) (pstr ("B")) 3 [9])]
        none none (some 99) =
        dictValues [(pstr ("A"), Room.mk (pstr ("A")) (pstr ("B")) 3 [9])] :=
  ⟨(C4_findRooms_filters [(pstr ("A"), Room.mk (pstr ("A")) (pstr ("B")) 3 [9])]
      none none none).2.2.1 (by decide) (by decide),
    (C4_findRooms_filters [(pstr ("A"), Room.mk (pstr ("A")) (pstr ("B")) 3 [9])]
      none none none).2.2.2 99 (by decide) (by decide)⟩

/-- A room whose stored hour list is already ascending serializes to the
ascending display as-is. -/
theorem sorted_display_eq {r : Room} (hs : r.booked_hours.Sorted (· ≤ ·)) :
    r.booked_hours_str = ascendingDisplay r := by
  unfold ascendingDisplay Room.booked_hours_str
  rw [List.Sorted.insertionSort_eq hs]

/-- Lemma: `bookSeq` preserves sortedness of the stored hour list. -/
theorem bookSeq_sorted {r : Room} (hsorted : r.booked_hours.Sorted (· ≤ ·))
    (hs : List Int) : ((bookSeq r hs).booked_hours).Sorted (· ≤ ·) := by
  induction hs generalizing r with
  | nil => exact hsorted
  | cons h t ih =>
    rw [show bookSeq r (h :: t) =
        bookSeq (match r.book_hour h with
          | .ok r2 => r2
          | .error _ => r) t from rfl]
    cases hb : r.book_hour h with
    | ok r2 => exact ih (book_hour_ok_perm hb).2.1
    | error e => exact ih hsorted

/-- C9 counterexample: `bookedHoursDisplay` does not sort, so a room
hydrated from a CSV row listing its hours out of order (`"14;9"`) displays
`"14;9"`, not the ascending `"9;14"` the claim prescribes. -/
theorem C9_display_cex :
    load_from_csv (some [Row.mk (some (pstr ("A"))) (some (pstr ("B")))
        (some (pstr ("1"))) (some (pstr ("14;9")))]) =
      [(pstr ("A"), Room.mk (pstr ("A")) (pstr ("B")) 1 [14, 9])] ∧
    (Room.mk (pstr ("A")) (pstr ("B")) 1 [14, 9]).booked_hours_str = pstr ("14;9") ∧
    ascendingDisplay (Room.mk (pstr ("A")) (pstr ("B")) 1 [14, 9]) = pstr ("9;14") ∧
    (Room.mk (pstr ("A")) (pstr ("B")) 1 [14, 9]).booked_hours_str ≠
      ascendingDisplay (Room.mk (pstr ("A")) (pstr ("B")) 1 [14, 9]) := by
  exact ⟨by decide, by decide, by decide, by decide⟩

/-- C9 (amended): for every Room whose stored hour list is ascending — which
every room maintained purely by `bookHour` is — `bookedHoursDisplay` returns
the booked hours as an ascending, semicolon-joined textual list, and the
empty string when the booked-hours set is empty. -/
theorem C9_bookedHoursDisplay (r : Room)
    (hs : r.booked_hours.Sorted (· ≤ ·)) :
    r.booked_hours_str = ascendingDisplay r ∧
      (r.booked_hours = [] → r.booked_hours_str = []) := by
  refine ⟨sorted_display_eq hs, fun he => ?_⟩
  unfold Room.booked_hours_str
  rw [he]
  rfl

/-- Witness for C9 (amended) at a concrete sorted room. -/
theorem C9_bookedHoursDisplay_witness :
    (Room.mk (pstr ("A")) (pstr ("B")) 1 [9, 14]).booked_hours_str =
        ascendingDisplay (Room.mk (pstr ("A")) (pstr ("B")) 1 [9, 14]) ∧
      ((Room.mk (pstr ("A")) (pstr ("B")) 1 [9, 14]).booked_hours = [] →
        (Room.mk (pstr ("A")) (pstr ("B")) 1 [9, 14]).booked_hours_str = []) :=
  C9_bookedHoursDisplay (Room.mk (pstr ("A")) (pstr ("B")) 1 [9, 14]) (by decide)

/-- C10: a room created the way `addRoom` creates it (empty booked hours)
keeps its booked-hours list sorted ascending across any sequence of
`bookHour` calls — `book_hour` re-sorts after every insertion and a failed
call changes nothing — so its serialized display is already ascending
without further sorting. -/
theorem C10_bookSeq_sorted (id b : Str) (cap : Int) (hs : List Int) :
    ((bookSeq (Room.mk id b cap []) hs).booked_hours).Sorted (· ≤ ·) ∧
      (bookSeq (Room.mk id b cap []) hs).booked_hours_str =
        ascendingDisplay (bookSeq (Room.mk id b cap []) hs) := by
  have h := bookSeq_sorted (r := Room.mk id b cap []) (by simp) hs
  exact ⟨h, sorted_display_eq h⟩

/-- C6: evaluation at the failing input.  Loading a file whose second row
has an unparseable `booked_hours` (`"x"`) stops the load but KEEPS the row
already inserted — the registry is `[A]`, not the empty fall-back the claim
(and the code's own warning message "Starting with empty data.") promises.
The claim's other load behaviors hold and are evaluated here: a missing
file yields an empty registry, a row with empty `room_no` is skipped, an
absent `capacity` column defaults to 0, and an absent or empty
`booked_hours` yields an empty set. -/
theorem C6_load_keeps_rows_on_error :
    load_from_csv (some [Row.mk (some (pstr ("A"))) (some (pstr ("B")))
        (some (pstr ("1"))) (some []),
      Row.mk (some (pstr ("C"))) (some (pstr ("D"))) (some (pstr ("2")))
        (some (pstr ("x")))]) =
      [(pstr ("A"), Room.mk (pstr ("A")) (pstr ("B")) 1 [])] ∧
    load_from_csv none = [] ∧
    load_from_csv (some [Row.mk (some []) (some (pstr ("B"))) (some (pstr ("1")))
        (some (pstr ("9")))]) = [] ∧
    load_from_csv (some [Row.mk (some (pstr ("E"))) (some (pstr ("F"))) none
        (some [])]) = [(pstr ("E"), Room.mk (pstr ("E")) (pstr ("F")) 0 [])] ∧
    load_from_csv (some [Row.mk (some (pstr ("G"))) (some (pstr ("H")))
        (some (pstr ("5"))) none]) =
      [(pstr ("G"), Room.mk (pstr ("G")) (pstr ("H")) 5 [])] := by
  exact ⟨by decide, rfl, by decide, by decide, by decide⟩

/-- A successful `book_hour` presupposes the hour was not yet booked. -/
theorem book_hour_ok_not_mem {r r' : Room} {h : Int}
    (hok : r.book_hour h = .ok r') : h ∉ r.booked_hours := by
  intro hm
  rw [book_hour_of_mem hm] at hok
  cases hok

/-- Unfolding a successful `add_room`. -/
theorem add_room_ok_eq {reg reg' : Registry} {id b : Str} {cap : Int}
    (h : add_room reg id b cap = .ok reg') :
    dictGet? reg id = none ∧ reg' = dictInsert reg id (Room.mk id b cap []) := by
  unfold add_room at h
  by_cases hs : (dictGet? reg id).isSome
  · rw [if_pos hs] at h
    cases h
  · rw [if_neg hs] at h
    cases h
    exact ⟨Option.not_isSome_iff_eq_none.mp hs, rfl⟩

/-- Equation for `book_room` on an absent id. -/
theorem book_room_none {reg : Registry} {id : Str} (hour : Int)
    (hg : dictGet? reg id = none) :
    book_room reg id hour = .error .RoomNotFound := by
  unfold book_room get_room
  rw [hg]

/-- Equation for `book_room` on a present id, as a range check plus a delegated
`book_hour`. -/
theorem book_room_some {reg : Registry} {id : Str} {room : Room} (hour : Int)
    (hg : dictGet? reg id = some room) :
    book_room reg id hour =
      if hour < 0 ∨ hour > 23 then .error .InvalidHour
      else (room.book_hour hour).map (dictInsert reg id) := by
  unfold book_room get_room
  rw [hg]
  show (if hour < 0 ∨ hour > 23 then Except.error Err.InvalidHour
    else match room.book_hour hour with
      | .error e => .error e
      | .ok r2 => .ok (dictInsert reg id r2)) = _
  by_cases hrange : hour < 0 ∨ hour > 23
  · rw [if_pos hrange, if_pos hrange]
  · rw [if_neg hrange, if_neg hrange]
    cases hb : room.book_hour hour <;> simp [Except.map]

/-- Unfolding a successful `book_room`. -/
theorem book_room_ok_eq {reg reg' : Registry} {id : Str} {hour : Int}
    (h : book_room reg id hour = .ok reg') :
    ∃ room r2, dictGet? reg id = some room ∧ room.book_hour hour = .ok r2 ∧
      reg' = dictInsert reg id r2 := by
  cases hg : dictGet? reg id with
  | none =>
    rw [book_room_none hour hg] at h
    cases h
  | some room =>
    rw [book_room_some hour hg] at h
    by_cases hrange : hour < 0 ∨ hour > 23
    · rw [if_pos hrange] at h
      cases h
    · rw [if_neg hrange] at h
      cases hb : room.book_hour hour with
      | error e =>
        rw [hb] at h
        simp [Except.map] at h
      | ok r2 =>
        rw [hb] at h
        simp only [Except.map, Except.ok.injEq] at h
        exact ⟨room, r2, rfl, hb, h.symm⟩

/-- The row loop preserves the key/hour uniqueness invariants, provided the
rows it inserts carry duplicate-free hour lists. -/
theorem loadRows_inv {acc : Registry} {rows : List Row}
    (hkeys : (dictKeys acc).Nodup)
    (hvals : ∀ room ∈ dictValues acc, room.booked_hours.Nodup)
    (hok : ∀ row ∈ rows, ∀ id room, processRow row = .insert id room →
      room.booked_hours.Nodup) :
    (dictKeys (loadRows acc rows)).Nodup ∧
      ∀ room ∈ dictValues (loadRows acc rows), room.booked_hours.Nodup := by
  induction rows generalizing acc with
  | nil => exact ⟨hkeys, hvals⟩
  | cons row rest ih =>
    cases hp : processRow row with
    | skip =>
      simp only [loadRows, hp]
      exact ih hkeys hvals (fun r hr => hok r (List.mem_cons_of_mem _ hr))
    | insert id room =>
      simp only [loadRows, hp]
      refine ih (dictKeys_dictInsert_nodup _ hkeys) ?_
        (fun r hr => hok r (List.mem_cons_of_mem _ hr))
      intro v hv
      rcases dictValues_dictInsert_mem hv with hm | rfl
      · exact hvals v hm
      · exact hok row (List.mem_cons_self _ _) id v hp
    | err =>
      simp only [loadRows, hp]
      exact ⟨hkeys, hvals⟩

/-- C7 counterexample: the claim quantifies over hydration from persisted
state, but `load_from_csv` applies no de-duplication: a row with
`booked_hours = "5;5"` yields a reachable room whose hour list holds 5
twice. -/
theorem C7_nodup_cex :
    load_from_csv (some [Row.mk (some (pstr ("A"))) (some (pstr ("B")))
        (some (pstr ("1"))) (some (pstr ("5;5")))]) =
      [(pstr ("A"), Room.mk (pstr ("A")) (pstr ("B")) 1 [5, 5])] ∧
    ¬ ((Room.mk (pstr ("A")) (pstr ("B")) 1 [5, 5]).booked_hours).Nodup := by
  exact ⟨by decide, by decide⟩

/-- C7 (amended): in every state reachable from the empty registry by
hydration from rows whose inserted hour lists are duplicate-free (every
file `save_to_csv` writes from such a state qualifies) and by successful
`addRoom` / `bookRoom` calls, room ids are pairwise distinct and no hour
value appears twice in any room's `bookedHours`.  Unrestricted hydration
can violate hour-uniqueness (see the counterexample). -/
theorem C7_invariants {reg : Registry} (hr : Reach reg) :
    (dictKeys reg).Nodup ∧
      ∀ room ∈ dictValues reg, room.booked_hours.Nodup := by
  induction hr with
  | init =>
    exact ⟨show (dictKeys ([] : Registry)).Nodup from List.nodup_nil,
      fun room h => absurd h (List.not_mem_nil _)⟩
  | hydrate rows hok =>
    exact loadRows_inv
      (show (dictKeys ([] : Registry)).Nodup from List.nodup_nil)
      (fun room h => absurd h (List.not_mem_nil _)) hok
  | add hr' heq ih =>
    obtain ⟨hnone, rfl⟩ := add_room_ok_eq heq
    refine ⟨dictKeys_dictInsert_nodup _ ih.1, fun v hv => ?_⟩
    rcases dictValues_dictInsert_mem hv with hm | rfl
    · exact ih.2 v hm
    · exact List.nodup_nil
  | book hr' heq ih =>
    obtain ⟨room, r2, hg, hb, rfl⟩ := book_room_ok_eq heq
    refine ⟨dictKeys_dictInsert_nodup _ ih.1, fun v hv => ?_⟩
    rcases dictValues_dictInsert_mem hv with hm | rfl
    · exact ih.2 v hm
    · have hroom : room.booked_hours.Nodup :=
        ih.2 room (dictGet?_mem_values hg)
      have hperm := (book_hour_ok_perm hb).1
      rw [hperm.nodup_iff]
      rw [List.nodup_append]
      exact ⟨hroom, List.nodup_singleton _, by
        intro a ha hb'
        rw [List.mem_singleton] at hb'
        subst hb'
        exact book_hour_ok_not_mem hb ha⟩

/-- Witness for C7 at a concrete reachable registry (one `addRoom` from the
empty start). -/
theorem C7_invariants_witness :
    (dictKeys [(pstr ("A"), Room.mk (pstr ("A")) (pstr ("B")) 3 [])]).Nodup ∧
      ∀ room ∈ dictValues [(pstr ("A"), Room.mk (pstr ("A")) (pstr ("B")) 3 [])],
        room.booked_hours.Nodup :=
  C7_invariants (Reach.add Reach.init
    (rfl : add_room [] (pstr ("A")) (pstr ("B")) 3 =
      .ok [(pstr ("A"), Room.mk (pstr ("A")) (pstr ("B")) 3 [])]))

/-! ### The CSV round trip -/

theorem pyJoin_mem {c : Char} {sep : Char} {parts : List Str}
    (h : c ∈ pyJoin sep parts) : c = sep ∨ ∃ p ∈ parts, c ∈ p := by
  induction parts with
  | nil => cases h
  | cons p ps ih =>
    cases ps with
    | nil =>
      right
      exact ⟨p, List.mem_cons_self _ _, h⟩
    | cons q qs =>
      rw [pyJoin, List.mem_append, List.mem_cons] at h
      rcases h with hp | rfl | hj
      · exact Or.inr ⟨p, List.mem_cons_self _ _, hp⟩
      · exact Or.inl rfl
      · rcases ih hj with rfl | ⟨x, hx, hcx⟩
        · exact Or.inl rfl
        · exact Or.inr ⟨x, List.mem_cons_of_mem _ hx, hcx⟩

theorem booked_hours_str_not_ws {r : Room} :
    ∀ c ∈ r.booked_hours_str, ¬ c.isWhitespace := by
  intro c hc
  rcases pyJoin_mem hc with rfl | ⟨p, hp, hcp⟩
  · decide
  · rw [List.mem_map] at hp
    obtain ⟨h, _, rfl⟩ := hp
    exact pyIntStr_not_whitespace c hcp

theorem booked_hours_str_ne_nil {r : Room} (h : r.booked_hours ≠ []) :
    r.booked_hours_str ≠ [] := by
  unfold Room.booked_hours_str
  cases hl : r.booked_hours with
  | nil => exact absurd hl h
  | cons x xs =>
    cases xs with
    | nil => exact pyIntStr_ne_nil x
    | cons y ys =>
      rw [List.map_cons, List.map_cons, pyJoin]
      intro he
      rw [List.append_eq_nil] at he
      cases he.2

theorem mapPyInt_map (l : List Int) : mapPyInt (l.map pyIntStr) = some l := by
  induction l with
  | nil => rfl
  | cons x xs ih =>
    rw [List.map_cons]
    unfold mapPyInt
    rw [pyInt?_pyIntStr, ih]

/-- Parsing the serialized hour list restores the hours exactly. -/
theorem parseHours?_display (l : List Int) :
    parseHours? (pyJoin ';' (l.map pyIntStr)) = some l := by
  cases hl : l with
  | nil => rfl
  | cons x xs =>
    unfold parseHours?
    rw [splitOnChar_pyJoin (by simp) (fun p hp => by
      rw [List.mem_map] at hp
      obtain ⟨h, _, rfl⟩ := hp
      intro hsemi
      exact pyIntStr_ne_semi _ hsemi rfl)]
    rw [List.filter_eq_self.mpr (fun a ha => by
      rw [List.mem_map] at ha
      obtain ⟨h, _, rfl⟩ := ha
      rw [decide_eq_true_eq, pyStrip_eq_self pyIntStr_not_whitespace]
      exact pyIntStr_ne_nil h)]
    rw [← hl, mapPyInt_map]

/-- Reading back the row `save_to_csv` writes for a well-formed room
re-creates that room under its own id. -/
theorem processRow_savedRow {r : Room}
    (h1 : pyStrip r.room_no = r.room_no) (h2 : r.room_no ≠ [])
    (h3 : pyStrip r.building = r.building) :
    processRow (SavedRow.toRow
      ⟨r.room_no, r.building, pyIntStr r.capacity, r.booked_hours_str⟩) =
      .insert r.room_no r := by
  unfold processRow SavedRow.toRow
  simp only [Option.getD_some]
  rw [h1, h3, pyStrip_eq_self pyIntStr_not_whitespace,
    pyStrip_eq_self booked_hours_str_not_ws]
  have hsc : (if r.booked_hours_str = [] then some [] else
      parseHours? r.booked_hours_str) = some r.booked_hours := by
    by_cases hbh : r.booked_hours = []
    · rw [if_pos (by rw [Room.booked_hours_str, hbh]; rfl), hbh]
    · rw [if_neg (booked_hours_str_ne_nil hbh),
        show r.booked_hours_str = pyJoin ';' (r.booked_hours.map pyIntStr)
          from rfl,
        parseHours?_display]
  rw [hsc]
  show (if r.room_no = [] then RowResult.skip
    else match pyInt? (pyIntStr r.capacity) with
      | none => RowResult.err
      | some cap => RowResult.insert r.room_no
          ⟨r.room_no, r.building, cap, r.booked_hours⟩) =
    RowResult.insert r.room_no r
  rw [if_neg h2, pyInt?_pyIntStr]

theorem dictKeys_append (a b : Registry) :
    dictKeys (a ++ b) = dictKeys a ++ dictKeys b := by
  simp [dictKeys]

/-- The row loop over the rows `save_to_csv` writes appends the saved
registry behind the accumulator, for a well-formed saved registry whose
keys avoid the accumulator's. -/
theorem loadRows_save {reg : Registry} (acc : Registry)
    (hdisj : ∀ x ∈ dictKeys reg, x ∉ dictKeys acc)
    (hkeys : (dictKeys reg).Nodup)
    (hwf : ∀ p ∈ reg, p.2.room_no = p.1 ∧ pyStrip p.2.room_no = p.2.room_no ∧
      p.2.room_no ≠ [] ∧ pyStrip p.2.building = p.2.building) :
    loadRows acc ((save_to_csv reg).map SavedRow.toRow) = acc ++ reg := by
  induction reg generalizing acc with
  | nil => simp [save_to_csv, loadRows]
  | cons p rest ih =>
    obtain ⟨k, r⟩ := p
    obtain ⟨hid, hstrip, hne, hbld⟩ := hwf (k, r) (List.mem_cons_self _ _)
    rw [show save_to_csv ((k, r) :: rest) =
      (⟨r.room_no, r.building, pyIntStr r.capacity, r.booked_hours_str⟩ :
        SavedRow) :: save_to_csv rest from rfl]
    rw [List.map_cons]
    simp only [loadRows, processRow_savedRow hstrip hne hbld]
    have hknotacc : k ∉ dictKeys acc :=
      hdisj k (by rw [dictKeys_cons]; exact List.mem_cons_self _ _)
    have hknotrest : k ∉ dictKeys rest := by
      rw [dictKeys_cons] at hkeys
      exact (List.nodup_cons.mp hkeys).1
    rw [show dictInsert acc r.room_no r = acc ++ [(k, r)] from by
      rw [hid]; exact dictInsert_of_not_mem r hknotacc]
    rw [ih (acc ++ [(k, r)]) ?hd ?hk ?hw]
    · rw [List.append_assoc]
      rfl
    case hd =>
      intro x hx
      rw [dictKeys_append, List.mem_append]
      rintro (hxa | hxk)
      · exact hdisj x (by rw [dictKeys_cons]; exact List.mem_cons_of_mem _ hx) hxa
      · rw [show dictKeys [(k, r)] = [k] from rfl, List.mem_singleton] at hxk
        subst hxk
        exact hknotrest hx
    case hk =>
      rw [dictKeys_cons] at hkeys
      exact (List.nodup_cons.mp hkeys).2
    case hw =>
      intro q hq
      exact hwf q (List.mem_cons_of_mem _ hq)

/-- C5 counterexample: the round trip is lossy on a reachable registry.
`add_room` accepts the empty string as an id, `save_to_csv` writes it, and
`load_from_csv` then skips the row ("a row whose room_no field is empty is
skipped"), so reloading drops the room instead of restoring it. -/
theorem C5_roundtrip_cex :
    add_room [] [] (pstr ("B")) 5 =
      .ok [(([] : Str), Room.mk [] (pstr ("B")) 5 [])] ∧
    load_from_csv (some ((save_to_csv
      [(([] : Str), Room.mk [] (pstr ("B")) 5 [])]).map SavedRow.toRow)) = [] ∧
    [(([] : Str), Room.mk [] (pstr ("B")) 5 [])] ≠ ([] : Registry) := by
  exact ⟨rfl, by decide, by decide⟩

/-- C5 (amended): for every registry whose entries are well-formed — keys
pairwise distinct, each room stored under its own id, ids nonempty and
strip-invariant, buildings strip-invariant (all of which hold for data
entered through the prompt loop, which strips its input) — exporting to the
persisted tabular format and loading the output into a fresh registry
restores the registry exactly: every room with identical id, building,
capacity and booked hours, and no other rooms. -/
theorem C5_roundtrip (reg : Registry)
    (hkeys : (dictKeys reg).Nodup)
    (hwf : ∀ p ∈ reg, p.2.room_no = p.1 ∧ pyStrip p.2.room_no = p.2.room_no ∧
      p.2.room_no ≠ [] ∧ pyStrip p.2.building = p.2.building) :
    load_from_csv (some ((save_to_csv reg).map SavedRow.toRow)) = reg := by
  show loadRows [] ((save_to_csv reg).map SavedRow.toRow) = reg
  rw [loadRows_save [] (fun x _ h => absurd h (List.not_mem_nil _)) hkeys hwf]
  rfl

/-- Witness for C5 (amended) at a concrete two-room registry. -/
theorem C5_roundtrip_witness :
    load_from_csv (some ((save_to_csv
        [(pstr ("NAB101"), Room.mk (pstr ("NAB101")) (pstr ("NAB")) 30 [9, 14]),
          (pstr ("FD2"), Room.mk (pstr ("FD2")) (pstr ("FD-II")) 0 [])]).map
        SavedRow.toRow)) =
      [(pstr ("NAB101"), Room.mk (pstr ("NAB101")) (pstr ("NAB")) 30 [9, 14]),
        (pstr ("FD2"), Room.mk (pstr ("FD2")) (pstr ("FD-II")) 0 [])] :=
  C5_roundtrip
    [(pstr ("NAB101"), Room.mk (pstr ("NAB101")) (pstr ("NAB")) 30 [9, 14]),
      (pstr ("FD2"), Room.mk (pstr ("FD2")) (pstr ("FD-II")) 0 [])]
    (by decide) (by decide)

end Booking
